import Mathlib

/-!
Verification of a tenant-scoped service-worker cache engine: the
version-identity resolver (`getFileBaseName`), the freshness check
(`isExpired`), the cache-first fetch orchestrator (`cacheFirst`), the two
eviction policies (`smartCacheCleanup`, `limitCacheSize`), the on-demand
full sweep (`cleanupAllOldVersions`), and the maintenance message
handler. Each definition is a shallow embedding of the corresponding
function of `sw.js`; timestamps are naturals, payload bytes are opaque
identifiers, and the fallible collaborators (network fetch, storage put)
are passed in as explicit `Except` values or flags.
-/

namespace SW

/-- Cache policy configuration: the two fields of the runtime config that
the read/write path consults (`maxAge.static`, the freshness window in
milliseconds, and `maxEntries.static`, the capacity limit). The other
fields of `DEFAULT_CONFIG` (cache names, strategies, precache URLs,
exclude patterns) do not enter the orchestrator paths verified here. -/
structure SWConfig where
  maxAge : Nat
  maxEntries : Nat
deriving DecidableEq

/-- Source constant `DEFAULT_CONFIG`: seven days of freshness, at most 100 entries. -/
def defaultConfig : SWConfig :=
  { maxAge := 7 * 24 * 60 * 60 * 1000, maxEntries := 100 }

/-- A stored cache entry: its physical key (URL string), the value of the
`sw-cached-at` header (`none` when the stored response carries no such
header, as for precached entries), and an opaque payload identifier
standing for the response body. -/
structure Entry where
  url : String
  storedAt : Option Nat
  body : Nat
deriving DecidableEq

/-- A cache namespace: its entries in insertion order, the order in which
`cache.keys()` enumerates them. -/
abbrev Cache := List Entry

/-- Hexadecimal digit test: the character class `[a-f0-9]` under the
regex's case-insensitive flag `i`. -/
def isHexChar (c : Char) : Bool :=
  ('0' ≤ c && c ≤ '9') || ('a' ≤ c && c ≤ 'f') || ('A' ≤ c && c ≤ 'F')

/-- Split a character list at its last occurrence of `sep`:
`splitLastOn sep l = some (p, e)` when `l = p ++ sep :: e` with `e` free
of `sep`, and `none` when `sep` does not occur in `l`. This captures both
`pathname.split('/').pop()` (the text after the last slash) and the
anchored extension group `(\.[^.]+)$` of the version regex (the text
after the last dot). -/
def splitLastOn (sep : Char) : List Char → Option (List Char × List Char)
  | [] => none
  | c :: rest =>
    match splitLastOn sep rest with
    | some (p, e) => some (c :: p, e)
    | none => if c = sep then some ([], rest) else none

/-- The filename component of a URL pathname, as computed by
`pathname.split('/').pop()`: the text after the last slash, or the whole
string when it contains no slash. -/
def fileNameOf (l : List Char) : List Char :=
  match splitLastOn '/' l with
  | some (_, f) => f
  | none => l

/-- Left-to-right search for the split of the pre-extension part into
`base ++ sep :: hash`, exactly as the backtracking engine resolves
`^(.+?)[.-]([a-f0-9]{6,})` once the extension group is pinned to the last
dot: `base` holds the characters consumed so far (reversed), and a
position matches when at least one character precedes it, the current
character is `.` or `-`, and the entire remainder consists of six or more
hex characters. The lazy `(.+?)` makes the leftmost such position win. -/
def findSplit (base : List Char) : List Char → Option (List Char)
  | [] => none
  | c :: tail =>
    if !base.isEmpty && (c == '.' || c == '-') &&
        decide (6 ≤ tail.length) && tail.all isHexChar
    then some base.reverse
    else findSplit (c :: base) tail

/-- Match a filename against `^(.+?)[.-]([a-f0-9]{6,})(\.[^.]+)$` (flag
`i`): `some (base, ext)` on match, with `ext` carrying its leading dot,
and `none` otherwise. The extension group must start at the last dot of
the filename (it cannot contain a dot and is anchored at the end), must
be nonempty after that dot, and the hash group must fill everything
between the separator and that dot. -/
def matchVersioned (filename : List Char) : Option (List Char × List Char) :=
  match splitLastOn '.' filename with
  | none => none
  | some (p, ext) =>
    if ext.isEmpty then none
    else
      match findSplit [] p with
      | none => none
      | some base => some (base, '.' :: ext)

/-- Function `getFileBaseName(url)`: derive the logical identity of a physical
key. Takes the URL pathname string (host URL parsing is outside the
model), extracts the filename after the last slash, and strips a trailing
content-hash segment when the version regex matches: on a match return
base plus extension, otherwise the filename unchanged. -/
def getFileBaseName (url : String) : String :=
  let filename := fileNameOf url.data
  match matchVersioned filename with
  | some (base, ext) => String.mk (base ++ ext)
  | none => String.mk filename


/-- The timestamp used for eviction ordering:
`parseInt(response.headers.get('sw-cached-at') || '0')` — an entry with
no timestamp header sorts as time 0. -/
def timeOf (e : Entry) : Nat :=
  e.storedAt.getD 0

/-- Operation `cache.match(request)` within one namespace: the entry stored under
the request's URL, if any. -/
def lookup (c : Cache) (url : String) : Option Entry :=
  c.find? (fun e => e.url == url)

/-- Function `isExpired(response)`: a response with no `sw-cached-at` header never
expires; otherwise its age `Date.now() - cachedAt` is compared against
`maxAge.static`. The age is computed in `Int` so that a stored timestamp
in the future (age negative) counts as not expired, as in the source. -/
def isExpired (cfg : SWConfig) (now : Nat) (e : Entry) : Bool :=
  match e.storedAt with
  | none => false
  | some t => decide ((now : Int) - (t : Int) > (cfg.maxAge : Int))

/-- Function `smartCacheCleanup(cacheName, newRequest)`: enumerate the keys of the
namespace, select those whose file base name equals that of the incoming
request but whose URL differs, and delete them. The surviving cache is
the complement of the deleted set. -/
def smartCacheCleanup (c : Cache) (newUrl : String) : Cache :=
  c.filter (fun e =>
    !(getFileBaseName e.url == getFileBaseName newUrl && e.url != newUrl))

/-- Operation `cache.put(request, response)`: replace any entry stored under the
same URL and append the new entry at the end of the enumeration order. -/
def put (c : Cache) (e : Entry) : Cache :=
  c.filter (fun x => x.url != e.url) ++ [e]

/-- Comparator `(a, b) => a.time - b.time` as the ordering relation of a
stable sort: ascending by stored timestamp. -/
def byTime (a b : Entry) : Prop :=
  timeOf a ≤ timeOf b

instance : DecidableRel byTime := fun a b => by
  unfold byTime
  infer_instance

/-- Function `limitCacheSize(cacheName, maxEntries)`: when the entry count exceeds
the capacity limit, pair every key with its stored timestamp, sort
ascending by timestamp with the substrate's stable sort, take the oldest
`count - maxEntries` entries, and delete each of them by key. Deleting by
key removes every entry bearing that URL from the namespace. -/
def limitCacheSize (c : Cache) (maxEntries : Nat) : Cache :=
  if maxEntries < c.length then
    c.filter (fun e =>
      !(((List.insertionSort byTime c).take (c.length - maxEntries)).any
        (fun d => d.url == e.url)))
  else c

/-- Result of the network collaborator: a response with its `ok` status
and an opaque body identifier. -/
structure FetchResult where
  ok : Bool
  body : Nat
deriving DecidableEq

/-- What the orchestrator responds with: a stored entry or the network
response. -/
inductive Res where
  | fromCache (e : Entry)
  | fromNetwork (r : FetchResult)
deriving DecidableEq

deriving instance DecidableEq for Except

/-- Outcome of one `cacheFirst` run: the namespace afterwards, the value
returned to the caller (or the propagated error), and whether the network
collaborator was invoked. -/
structure CFOut where
  cache : Cache
  result : Except String Res
  networkCalled : Bool
deriving DecidableEq

/-- The error message standing for a storage-substrate failure of
`cache.put`. -/
def putFailMsg : String :=
  "cache.put failed"

/-- Function `cacheFirst(request, cacheName)` with the storage write's outcome
made explicit. Lookup; if a stored fresh entry exists, respond with it
without touching the network. Otherwise invoke the network collaborator
(`net` is its outcome). On network error, the catch block re-queries the
cache and responds with any stored entry, else rethrows. On an `ok`
response, clean up same-identity old versions, write the new entry
tagged `sw-cached-at = now`, and trim to capacity; when `putOk` is false
the `cache.put` call throws instead, landing in the same catch block with
the cleanup already applied, which re-queries the cache and responds with
any stored entry, else rethrows the storage error. A non-`ok` network
response is returned without being stored. -/
def cacheFirstAux (cfg : SWConfig) (c : Cache) (url : String)
    (net : Except String FetchResult) (now : Nat) (putOk : Bool) : CFOut :=
  match lookup c url with
  | some e =>
    if !isExpired cfg now e then
      ⟨c, Except.ok (Res.fromCache e), false⟩
    else
      cacheFirstNet cfg c url net now putOk
  | none => cacheFirstNet cfg c url net now putOk
where
  /-- The part of `cacheFirst` after the fresh-hit test: network call,
  conditional store, and the catch block. -/
  cacheFirstNet (cfg : SWConfig) (c : Cache) (url : String)
      (net : Except String FetchResult) (now : Nat) (putOk : Bool) : CFOut :=
    match net with
    | Except.error msg =>
      match lookup c url with
      | some e => ⟨c, Except.ok (Res.fromCache e), true⟩
      | none => ⟨c, Except.error msg, true⟩
    | Except.ok r =>
      if r.ok then
        let c1 := smartCacheCleanup c url
        if putOk then
          let c2 := put c1 (⟨url, some now, r.body⟩ : Entry)
          let c3 := limitCacheSize c2 cfg.maxEntries
          ⟨c3, Except.ok (Res.fromNetwork r), true⟩
        else
          match lookup c1 url with
          | some e => ⟨c1, Except.ok (Res.fromCache e), true⟩
          | none => ⟨c1, Except.error putFailMsg, true⟩
      else
        ⟨c, Except.ok (Res.fromNetwork r), true⟩

/-- Function `cacheFirst` with the storage substrate healthy. -/
def cacheFirst (cfg : SWConfig) (c : Cache) (url : String)
    (net : Except String FetchResult) (now : Nat) : CFOut :=
  cacheFirstAux cfg c url net now true

/-- Modelled from the install listener: `cache.addAll(precacheUrls)`
fetches each URL and stores the response as delivered; only the
`cacheFirst` store path attaches the `sw-cached-at` header, so precached
entries carry no timestamp header. -/
def precache (urls : List (String × Nat)) : Cache :=
  urls.map (fun p => ⟨p.1, none, p.2⟩)

/-- Lexicographic comparison of URL strings by character code, modelling
the ascending `(a, b) => a.url.localeCompare(b.url)` sort order for the
ASCII keys the engine stores. -/
def urlLe : List Char → List Char → Bool
  | [], _ => true
  | _ :: _, [] => false
  | a :: as, b :: bs =>
    if a < b then true
    else if b < a then false
    else urlLe as bs

/-- Function `cleanupAllOldVersions` restricted to one namespace: group entries by
file base name, sort each group ascending by URL, and keep only the last
of each group. An entry survives exactly when every entry sharing its
base name has a URL at most its own. -/
def cleanupAllOldVersions (c : Cache) : Cache :=
  c.filter (fun e =>
    c.all (fun e2 =>
      !(getFileBaseName e2.url == getFileBaseName e.url) ||
        urlLe e2.url.data e.url.data))

/-- The four maintenance request types served over a reply channel. -/
inductive MsgType where
  | clearCache
  | getCacheSize
  | getCacheInfo
  | cleanupOldVersions
deriving DecidableEq

/-- A reply posted on `event.ports[0]`: `{success: true}`,
`{success: false, error}`, `{size}`, or the cache-info payload. -/
inductive Reply where
  | successTrue
  | successFalse (error : String)
  | size (n : Nat)
  | infoPayload (n : Nat)
deriving DecidableEq

/-- The message listener's reply behaviour for one maintenance request,
given the outcome of the underlying storage operation (its numeric result
abstracted). `CLEAR_CACHE` and `CLEANUP_OLD_VERSIONS` chain a rejection
handler that posts `{success: false, error}`; `GET_CACHE_SIZE` and
`GET_CACHE_INFO` chain only a fulfillment handler, so when the operation
rejects no callback runs and nothing is posted. -/
def messageReplies (t : MsgType) (op : Except String Nat) : List Reply :=
  match t with
  | MsgType.clearCache =>
    match op with
    | Except.ok _ => [Reply.successTrue]
    | Except.error e => [Reply.successFalse e]
  | MsgType.getCacheSize =>
    match op with
    | Except.ok n => [Reply.size n]
    | Except.error _ => []
  | MsgType.getCacheInfo =>
    match op with
    | Except.ok n => [Reply.infoPayload n]
    | Except.error _ => []
  | MsgType.cleanupOldVersions =>
    match op with
    | Except.ok _ => [Reply.successTrue]
    | Except.error e => [Reply.successFalse e]

/-- The spec-side characterization of a filename carrying a version
suffix: it decomposes as a nonempty base, a `.` or `-` separator, a hash
of six or more hex characters, and a nonempty dot-free extension preceded
by a dot. -/
def IsVersionedName (l : List Char) : Prop :=
  ∃ base sep hash ext,
    l = base ++ sep :: (hash ++ '.' :: ext) ∧ base ≠ [] ∧
      (sep = '.' ∨ sep = '-') ∧ 6 ≤ hash.length ∧ hash.all isHexChar ∧
      ext ≠ [] ∧ '.' ∉ ext

theorem splitLastOn_eq_none (sep : Char) (l : List Char) (h : sep ∉ l) :
    splitLastOn sep l = none := by
  induction l with
  | nil => rfl
  | cons c rest ih =>
    simp only [List.mem_cons, not_or] at h
    simp only [splitLastOn, ih h.2]
    exact if_neg (fun hc => h.1 hc.symm)

theorem not_mem_of_splitLastOn_eq_none (sep : Char) :
    ∀ l : List Char, splitLastOn sep l = none → sep ∉ l := by
  intro l
  induction l with
  | nil => intro _ hm; cases hm
  | cons c rest ih =>
    intro hn hm
    simp only [splitLastOn] at hn
    cases hr : splitLastOn sep rest with
    | some p => rw [hr] at hn; cases hn
    | none =>
      rw [hr] at hn
      rcases List.mem_cons.mp hm with h1 | h2
      · rw [if_pos h1.symm] at hn; cases hn
      · exact ih hr h2

theorem splitLastOn_sound (sep : Char) :
    ∀ (l p e : List Char), splitLastOn sep l = some (p, e) →
      l = p ++ sep :: e ∧ sep ∉ e := by
  intro l
  induction l with
  | nil => intro p e h; cases h
  | cons c rest ih =>
    intro p e h
    cases hr : splitLastOn sep rest with
    | some pe =>
      obtain ⟨p', e'⟩ := pe
      simp only [splitLastOn, hr, Option.some.injEq, Prod.mk.injEq] at h
      obtain ⟨hp, he⟩ := h
      subst hp; subst he
      obtain ⟨hrest, hmem⟩ := ih p' e' hr
      exact ⟨by rw [hrest]; rfl, hmem⟩
    | none =>
      simp only [splitLastOn, hr] at h
      by_cases hc : c = sep
      · simp only [if_pos hc, Option.some.injEq, Prod.mk.injEq] at h
        obtain ⟨hp, he⟩ := h
        subst hp; subst he
        exact ⟨by simp [hc], not_mem_of_splitLastOn_eq_none sep rest hr⟩
      · simp only [if_neg hc] at h
        exact Option.noConfusion h

theorem splitLastOn_complete (sep : Char) (e : List Char) (he : sep ∉ e) :
    ∀ p : List Char, splitLastOn sep (p ++ sep :: e) = some (p, e) := by
  intro p
  induction p with
  | nil =>
    simp only [List.nil_append, splitLastOn, splitLastOn_eq_none sep e he]
    simp
  | cons c p' ih =>
    simp only [List.cons_append, splitLastOn, List.append_eq, ih]

theorem findSplit_sound :
    ∀ (rest acc r : List Char), findSplit acc rest = some r →
      ∃ b sep h, rest = b ++ sep :: h ∧ r = acc.reverse ++ b ∧
        (sep = '.' ∨ sep = '-') ∧ 6 ≤ h.length ∧ h.all isHexChar ∧
        r ≠ [] := by
  intro rest
  induction rest with
  | nil => intro acc r h; cases h
  | cons c tail ih =>
    intro acc r h
    simp only [findSplit] at h
    split at h
    case isTrue hg =>
      have hr : acc.reverse = r := Option.some.inj h
      obtain ⟨⟨⟨hne, hsep⟩, hlen⟩, hhex⟩ := by
        simpa only [Bool.and_eq_true, Bool.not_eq_true', List.isEmpty_eq_false,
          Bool.or_eq_true, beq_iff_eq, decide_eq_true_eq] using hg
      refine ⟨[], c, tail, rfl, ?_, hsep, hlen, hhex, ?_⟩
      · rw [← hr]; simp
      · rw [← hr]
        simpa using hne
    case isFalse hg =>
      obtain ⟨b', sep, hs, htail, hr, hsep, hlen, hhex, hne⟩ := ih (c :: acc) r h
      refine ⟨c :: b', sep, hs, by rw [htail]; rfl, ?_, hsep, hlen, hhex, hne⟩
      rw [hr]
      simp

theorem findSplit_complete :
    ∀ (b acc : List Char) (sep : Char) (h : List Char),
      (b = [] → acc ≠ []) → (sep = '.' ∨ sep = '-') → 6 ≤ h.length →
      h.all isHexChar = true →
      (findSplit acc (b ++ sep :: h)).isSome = true := by
  intro b
  induction b with
  | nil =>
    intro acc sep h hacc hsep hlen hhex
    have hne : acc ≠ [] := hacc rfl
    have hg : (!acc.isEmpty && (sep == '.' || sep == '-') &&
        decide (6 ≤ h.length) && h.all isHexChar) = true := by
      simp only [Bool.and_eq_true, Bool.not_eq_true', List.isEmpty_eq_false,
        Bool.or_eq_true, beq_iff_eq, decide_eq_true_eq]
      exact ⟨⟨⟨hne, hsep⟩, hlen⟩, hhex⟩
    simp only [List.nil_append, findSplit, hg, if_true]
    rfl
  | cons c b' ih =>
    intro acc sep h hacc hsep hlen hhex
    simp only [List.cons_append, findSplit, List.append_eq]
    split
    · rfl
    · exact ih (c :: acc) sep h (fun _ => List.cons_ne_nil c acc) hsep hlen hhex

theorem matchVersioned_sound (l b e : List Char)
    (hm : matchVersioned l = some (b, e)) : IsVersionedName l := by
  unfold matchVersioned at hm
  cases hs : splitLastOn '.' l with
  | none =>
    simp only [hs] at hm
    exact Option.noConfusion hm
  | some pe =>
    obtain ⟨p, ext⟩ := pe
    simp only [hs] at hm
    cases hemp : ext.isEmpty with
    | true =>
      simp only [hemp, if_true] at hm
      exact Option.noConfusion hm
    | false =>
      simp only [hemp, Bool.false_eq_true, if_false] at hm
      cases hf : findSplit [] p with
      | none =>
        simp only [hf] at hm
        exact Option.noConfusion hm
      | some base =>
        simp only [hf, Option.some.injEq, Prod.mk.injEq] at hm
        obtain ⟨hl, hdot⟩ := splitLastOn_sound '.' l p ext hs
        obtain ⟨b', sep, hash, hp, hbase, hsep, hlen, hhex, hne⟩ :=
          findSplit_sound p [] base hf
        refine ⟨b', sep, hash, ext, ?_, ?_, hsep, hlen, hhex, ?_, hdot⟩
        · rw [hl, hp]; simp
        · have hbb : base = b' := by simpa using hbase
          rw [← hbb]
          exact hne
        · exact List.isEmpty_eq_false.mp hemp

theorem matchVersioned_complete (l : List Char) (hv : IsVersionedName l) :
    (matchVersioned l).isSome = true := by
  obtain ⟨base, sep, hash, ext, hl, hbase, hsep, hlen, hhex, hne, hdot⟩ := hv
  have hl2 : l = (base ++ sep :: hash) ++ '.' :: ext := by rw [hl]; simp
  have hs : splitLastOn '.' l = some (base ++ sep :: hash, ext) := by
    rw [hl2]; exact splitLastOn_complete '.' ext hdot (base ++ sep :: hash)
  have hf := findSplit_complete base [] sep hash (fun hb => absurd hb hbase)
    hsep hlen hhex
  have hemp : ext.isEmpty = false := List.isEmpty_eq_false.mpr hne
  unfold matchVersioned
  simp only [hs, hemp, Bool.false_eq_true, if_false]
  cases hfs : findSplit [] (base ++ sep :: hash) with
  | none => simp [hfs] at hf
  | some r => simp only [hfs]; rfl

theorem orderedInsert_append_last {α : Type} (r : α → α → Prop)
    [DecidableRel r] (x a : α) (hxa : r x a) :
    ∀ s : List α,
      List.orderedInsert r x (s ++ [a]) = List.orderedInsert r x s ++ [a] := by
  intro s
  induction s with
  | nil =>
    simp only [List.nil_append, List.orderedInsert, if_pos hxa]
    rfl
  | cons y s' ih =>
    simp only [List.cons_append, List.orderedInsert, List.append_eq]
    by_cases h : r x y
    · simp only [if_pos h, List.cons_append]
    · simp only [if_neg h, ih, List.cons_append]

theorem insertionSort_append_last {α : Type} (r : α → α → Prop)
    [DecidableRel r] (a : α) :
    ∀ l : List α, (∀ x ∈ l, r x a) →
      List.insertionSort r (l ++ [a]) = List.insertionSort r l ++ [a] := by
  intro l
  induction l with
  | nil => intro _; rfl
  | cons x l' ih =>
    intro h
    simp only [List.cons_append, List.insertionSort, List.append_eq]
    rw [ih (fun y hy => h y (List.mem_cons_of_mem x hy))]
    exact orderedInsert_append_last r x a (h x (List.mem_cons_self x l')) _

theorem limitCacheSize_subset (c : Cache) (n : Nat) :
    ∀ e ∈ limitCacheSize c n, e ∈ c := by
  intro e he
  unfold limitCacheSize at he
  split at he
  · exact List.mem_of_mem_filter he
  · exact he

theorem lookup_smartCacheCleanup (c : Cache) (url : String) :
    lookup (smartCacheCleanup c url) url = lookup c url := by
  induction c with
  | nil => rfl
  | cons e c' ih =>
    unfold smartCacheCleanup lookup at ih ⊢
    by_cases hu : e.url = url
    · have hp : (!(getFileBaseName e.url == getFileBaseName url &&
          e.url != url)) = true := by simp [hu]
      simp only [List.filter_cons, hp, if_true, List.find?_cons,
        show (e.url == url) = true by simp [hu]]
    · cases hp : (!(getFileBaseName e.url == getFileBaseName url &&
          e.url != url)) with
      | true =>
        simp only [List.filter_cons, hp, if_true, List.find?_cons,
          show (e.url == url) = false by simp [hu]]
        exact ih
      | false =>
        simp only [List.filter_cons, hp, Bool.false_eq_true, if_false,
          List.find?_cons, show (e.url == url) = false by simp [hu]]
        exact ih

theorem cacheFirstNet_networkCalled (cfg : SWConfig) (c : Cache)
    (url : String) (net : Except String FetchResult) (now : Nat)
    (putOk : Bool) :
    (cacheFirstAux.cacheFirstNet cfg c url net now putOk).networkCalled
      = true := by
  unfold cacheFirstAux.cacheFirstNet
  cases net with
  | error msg =>
    cases lookup c url with
    | some e => rfl
    | none => rfl
  | ok r =>
    by_cases hr : r.ok = true
    · simp only [hr, if_true]
      cases putOk with
      | true => rfl
      | false =>
        simp only [Bool.false_eq_true, if_false]
        cases lookup (smartCacheCleanup c url) url with
        | some e => rfl
        | none => rfl
    · simp only [Bool.not_eq_true] at hr
      simp only [hr, Bool.false_eq_true, if_false]

/-- C1, counterexample to the claim as stated: with an empty namespace,
a network fetch that succeeds with an ok response, and a storage write
that fails, the orchestrator does not return the network response — the
storage error propagates to the caller. -/
theorem c1_counterexample :
    (cacheFirstAux defaultConfig [] "app.js" (Except.ok ⟨true, 1⟩) 0
        false).result = Except.error putFailMsg ∧
    (cacheFirstAux defaultConfig [] "app.js" (Except.ok ⟨true, 1⟩) 0
        false).result ≠ Except.ok (Res.fromNetwork ⟨true, 1⟩) := by
  constructor
  · decide
  · decide

/-- C1, amended: when the network fetch succeeds with an ok response but
the storage write fails, the request does not return the network
response; the orchestrator responds with the previously stored entry for
the key when one exists (whether fresh or stale), and otherwise the
storage error propagates to the caller. -/
theorem c1_storage_write_failure_amended (cfg : SWConfig) (c : Cache)
    (url : String) (r : FetchResult) (now : Nat) (hok : r.ok = true) :
    (∀ e, lookup c url = some e →
      (cacheFirstAux cfg c url (Except.ok r) now false).result
        = Except.ok (Res.fromCache e)) ∧
    (lookup c url = none →
      (cacheFirstAux cfg c url (Except.ok r) now false).result
        = Except.error putFailMsg) := by
  constructor
  · intro e he
    unfold cacheFirstAux
    simp only [he]
    by_cases hexp : isExpired cfg now e = true
    · simp only [hexp, Bool.not_true, Bool.false_eq_true, if_false]
      unfold cacheFirstAux.cacheFirstNet
      simp only [hok, if_true, Bool.false_eq_true, if_false,
        lookup_smartCacheCleanup, he]
    · simp only [Bool.not_eq_true] at hexp
      simp only [hexp, Bool.not_false, if_true]
  · intro hn
    unfold cacheFirstAux
    simp only [hn]
    unfold cacheFirstAux.cacheFirstNet
    simp only [hok, if_true, Bool.false_eq_true, if_false,
      lookup_smartCacheCleanup, hn]

theorem c1_witness :
    (⟨true, 7⟩ : FetchResult).ok = true ∧
    lookup [⟨"lib.js", some 2, 9⟩] "lib.js" = some ⟨"lib.js", some 2, 9⟩ ∧
    (cacheFirstAux defaultConfig [⟨"lib.js", some 2, 9⟩] "lib.js"
        (Except.ok ⟨true, 7⟩) 999999999999 false).result
      = Except.ok (Res.fromCache ⟨"lib.js", some 2, 9⟩) := by
  refine ⟨rfl, by decide, ?_⟩
  exact (c1_storage_write_failure_amended defaultConfig
    [⟨"lib.js", some 2, 9⟩] "lib.js" ⟨true, 7⟩ 999999999999 rfl).1
    ⟨"lib.js", some 2, 9⟩ (by decide)

/-- C4: an entry carrying a stored timestamp is served from the cache
without a network call exactly when its age `now - storedAt` is at most
the freshness window `maxAge.static`; outside that window the
orchestrator invokes the network. -/
theorem c4_freshness_window (cfg : SWConfig) (c : Cache) (url : String)
    (e : Entry) (t : Nat) (net : Except String FetchResult) (now : Nat)
    (hl : lookup c url = some e) (ht : e.storedAt = some t) :
    ((cacheFirst cfg c url net now).networkCalled = false ∧
        (cacheFirst cfg c url net now).result
          = Except.ok (Res.fromCache e)) ↔
      (now : Int) - (t : Int) ≤ (cfg.maxAge : Int) := by
  unfold cacheFirst cacheFirstAux
  simp only [hl]
  by_cases hexp : isExpired cfg now e = true
  · simp only [hexp, Bool.not_true, Bool.false_eq_true, if_false]
    constructor
    · intro h
      exact absurd (cacheFirstNet_networkCalled cfg c url net now true)
        (by rw [h.1]; exact Bool.false_ne_true)
    · intro h
      unfold isExpired at hexp
      rw [ht] at hexp
      simp only [decide_eq_true_eq] at hexp
      exact absurd h (not_le.mpr hexp)
  · simp only [Bool.not_eq_true] at hexp
    simp only [hexp, Bool.not_false, if_true]
    constructor
    · intro _
      unfold isExpired at hexp
      rw [ht] at hexp
      simp only [decide_eq_false_iff_not, not_lt] at hexp
      exact hexp
    · intro _
      constructor <;> trivial

theorem c4_witness :
    lookup [⟨"app.js", some 100, 3⟩] "app.js" = some ⟨"app.js", some 100, 3⟩ ∧
    (Entry.storedAt ⟨"app.js", some 100, 3⟩ = some 100) ∧
    ((((cacheFirst ⟨50, 10⟩ [⟨"app.js", some 100, 3⟩] "app.js"
        (Except.error "net") 151).networkCalled = false ∧
      (cacheFirst ⟨50, 10⟩ [⟨"app.js", some 100, 3⟩] "app.js"
        (Except.error "net") 151).result
          = Except.ok (Res.fromCache ⟨"app.js", some 100, 3⟩)) ↔
      ((151 : Int) - (100 : Int) ≤ ((50 : Nat) : Int)))) := by
  refine ⟨by decide, rfl, ?_⟩
  exact c4_freshness_window ⟨50, 10⟩ [⟨"app.js", some 100, 3⟩] "app.js"
    ⟨"app.js", some 100, 3⟩ 100 (Except.error "net") 151 (by decide) rfl

/-- C5: when the network fetch fails, the orchestrator responds with the
stored entry for the key whenever one exists — even one past its
freshness window — and propagates the network error to the caller when
none exists. -/
theorem c5_serve_stale_on_error (cfg : SWConfig) (c : Cache)
    (url : String) (emsg : String) (now : Nat) :
    (∀ e, lookup c url = some e →
      (cacheFirst cfg c url (Except.error emsg) now).result
        = Except.ok (Res.fromCache e)) ∧
    (lookup c url = none →
      (cacheFirst cfg c url (Except.error emsg) now).result
        = Except.error emsg) := by
  constructor
  · intro e he
    unfold cacheFirst cacheFirstAux
    simp only [he]
    by_cases hexp : isExpired cfg now e = true
    · simp only [hexp, Bool.not_true, Bool.false_eq_true, if_false]
      unfold cacheFirstAux.cacheFirstNet
      simp only [he]
    · simp only [Bool.not_eq_true] at hexp
      simp only [hexp, Bool.not_false, if_true]
  · intro hn
    unfold cacheFirst cacheFirstAux
    simp only [hn]
    unfold cacheFirstAux.cacheFirstNet
    simp only [hn]

theorem c5_witness :
    (cacheFirst defaultConfig [⟨"old.js", some 1, 4⟩] "old.js"
        (Except.error "offline") 999999999999).result
      = Except.ok (Res.fromCache ⟨"old.js", some 1, 4⟩) ∧
    (cacheFirst defaultConfig [] "old.js"
        (Except.error "offline") 5).result = Except.error "offline" := by
  constructor
  · exact (c5_serve_stale_on_error defaultConfig [⟨"old.js", some 1, 4⟩]
      "old.js" "offline" 999999999999).1 ⟨"old.js", some 1, 4⟩ (by decide)
  · exact (c5_serve_stale_on_error defaultConfig [] "old.js" "offline"
      5).2 (by decide)

/-- C10: an entry whose stored response lacks the `sw-cached-at` header
is never considered expired, so it is served from the cache without any
network call at every request time; and every entry created by
install-time precaching carries no such header. -/
theorem c10_no_header_never_expires (cfg : SWConfig) (c : Cache)
    (url : String) (e : Entry) (net : Except String FetchResult)
    (now : Nat) (us : List (String × Nat))
    (hl : lookup c url = some e) (hh : e.storedAt = none) :
    isExpired cfg now e = false ∧
    cacheFirst cfg c url net now
      = ⟨c, Except.ok (Res.fromCache e), false⟩ ∧
    ∀ e2 ∈ precache us, e2.storedAt = none := by
  have hexp : isExpired cfg now e = false := by
    unfold isExpired
    rw [hh]
  refine ⟨hexp, ?_, ?_⟩
  · unfold cacheFirst cacheFirstAux
    simp only [hl, hexp, Bool.not_false, if_true]
  · intro e2 he2
    unfold precache at he2
    obtain ⟨p, _, hp⟩ := List.mem_map.mp he2
    rw [← hp]

theorem c10_witness :
    lookup [⟨"boot.js", none, 8⟩] "boot.js" = some ⟨"boot.js", none, 8⟩ ∧
    (Entry.storedAt ⟨"boot.js", none, 8⟩ = none) ∧
    (isExpired defaultConfig 999999999999999 ⟨"boot.js", none, 8⟩ = false ∧
      cacheFirst defaultConfig [⟨"boot.js", none, 8⟩] "boot.js"
        (Except.error "unused") 999999999999999
        = ⟨[⟨"boot.js", none, 8⟩],
            Except.ok (Res.fromCache ⟨"boot.js", none, 8⟩), false⟩ ∧
      ∀ e2 ∈ precache [("boot.js", 8)], e2.storedAt = none) := by
  refine ⟨by decide, rfl, ?_⟩
  exact c10_no_header_never_expires defaultConfig [⟨"boot.js", none, 8⟩]
    "boot.js" ⟨"boot.js", none, 8⟩ (Except.error "unused") 999999999999999
    [("boot.js", 8)] (by decide) rfl

/-- C2: with the capacity limit equal to the current entry count, a
successful write of a fresh key with a new distinct identity and a
strictly larger timestamp leaves the namespace holding exactly
`capacityLimit` entries, equal to the old entries minus the oldest plus
the new one; in particular the entry with the smallest `storedAt` (the
head of the strictly time-ordered namespace) is absent afterwards. -/
theorem c2_capacity_eviction (cfg : SWConfig) (e0 : Entry)
    (rest : List Entry) (url : String) (r : FetchResult) (now : Nat)
    (hcap : cfg.maxEntries = (e0 :: rest).length)
    (hok : r.ok = true)
    (hchain : List.Chain' (fun a b => timeOf a < timeOf b) (e0 :: rest))
    (hnow : ∀ e ∈ e0 :: rest, timeOf e < now)
    (hident : ∀ e ∈ e0 :: rest,
      getFileBaseName e.url ≠ getFileBaseName url)
    (hpair : (e0 :: rest).Pairwise (fun a b => a.url ≠ b.url)) :
    (cacheFirst cfg (e0 :: rest) url (Except.ok r) now).cache
        = rest ++ [(⟨url, some now, r.body⟩ : Entry)] ∧
    (cacheFirst cfg (e0 :: rest) url (Except.ok r) now).cache.length
        = cfg.maxEntries ∧
    ∀ e ∈ (cacheFirst cfg (e0 :: rest) url (Except.ok r) now).cache,
      e.url ≠ e0.url := by
  have hurl : ∀ e ∈ e0 :: rest, e.url ≠ url := by
    intro e he heq
    exact hident e he (by rw [heq])
  have hlook : lookup (e0 :: rest) url = none := by
    apply List.find?_eq_none.mpr
    intro e he
    simpa using hurl e he
  have hclean : smartCacheCleanup (e0 :: rest) url = e0 :: rest := by
    apply List.filter_eq_self.mpr
    intro e he
    simp [hident e he]
  have hput : put (e0 :: rest) (⟨url, some now, r.body⟩ : Entry)
      = (e0 :: rest) ++ [(⟨url, some now, r.body⟩ : Entry)] := by
    unfold put
    congr 1
    apply List.filter_eq_self.mpr
    intro x hx
    simp [hurl x hx]
  haveI : IsTrans Entry (fun a b => timeOf a < timeOf b) :=
    ⟨fun _ _ _ hab hbc => lt_trans hab hbc⟩
  have hsortc : List.Sorted byTime (e0 :: rest) :=
    (List.chain'_iff_pairwise.mp hchain).imp (fun h => le_of_lt h)
  have hsortall :
      List.insertionSort byTime ((e0 :: rest) ++ [(⟨url, some now, r.body⟩ : Entry)])
        = (e0 :: rest) ++ [(⟨url, some now, r.body⟩ : Entry)] := by
    rw [insertionSort_append_last byTime (⟨url, some now, r.body⟩ : Entry)
      (e0 :: rest) (fun x hx => le_of_lt (hnow x hx))]
    rw [List.Sorted.insertionSort_eq hsortc]
  have hfin :
      limitCacheSize ((e0 :: rest) ++ [(⟨url, some now, r.body⟩ : Entry)])
          cfg.maxEntries
        = rest ++ [(⟨url, some now, r.body⟩ : Entry)] := by
    unfold limitCacheSize
    have hcond : cfg.maxEntries
        < ((e0 :: rest) ++ [(⟨url, some now, r.body⟩ : Entry)]).length := by
      rw [hcap]
      simp
    rw [if_pos hcond]
    have hone : ((e0 :: rest) ++ [(⟨url, some now, r.body⟩ : Entry)]).length
        - cfg.maxEntries = 1 := by
      rw [hcap]
      simp
    rw [hsortall, hone]
    have htake : ((e0 :: rest) ++ [(⟨url, some now, r.body⟩ : Entry)]).take 1
        = [e0] := by
      simp
    rw [htake]
    have hhead : ∀ e ∈ rest ++ [(⟨url, some now, r.body⟩ : Entry)],
        (!([e0].any (fun d => d.url == e.url))) = true := by
      intro e he
      rcases List.mem_append.mp he with h | h
      · have : e0.url ≠ e.url :=
          (List.pairwise_cons.mp hpair).1 e h
        simp [this]
      · rw [List.mem_singleton] at h
        subst h
        have : e0.url ≠ url := hurl e0 (List.mem_cons_self e0 rest)
        simp [this]
    rw [List.cons_append, List.filter_cons]
    have hdrop : (!([e0].any (fun d => d.url == e0.url))) = false := by
      simp
    rw [hdrop]
    simp only [Bool.false_eq_true, if_false]
    exact List.filter_eq_self.mpr hhead
  have hcache : (cacheFirst cfg (e0 :: rest) url (Except.ok r) now).cache
      = rest ++ [(⟨url, some now, r.body⟩ : Entry)] := by
    unfold cacheFirst cacheFirstAux
    simp only [hlook]
    unfold cacheFirstAux.cacheFirstNet
    simp only [hok, if_true, hclean, hput, hfin]
  refine ⟨hcache, ?_, ?_⟩
  · rw [hcache, hcap]
    simp
  · intro e he
    rw [hcache] at he
    rcases List.mem_append.mp he with h | h
    · exact fun heq => (List.pairwise_cons.mp hpair).1 e h heq.symm
    · rw [List.mem_singleton] at h
      subst h
      exact fun heq =>
        hurl e0 (List.mem_cons_self e0 rest) heq.symm

theorem c2_witness :
    ((⟨1000, 2⟩ : SWConfig).maxEntries
        = ([⟨"a.111111.js", some 1, 5⟩, ⟨"b.222222.js", some 2, 6⟩]
            : List Entry).length) ∧
    ((cacheFirst ⟨1000, 2⟩
        [⟨"a.111111.js", some 1, 5⟩, ⟨"b.222222.js", some 2, 6⟩]
        "c.333333.js" (Except.ok ⟨true, 7⟩) 3).cache
      = [⟨"b.222222.js", some 2, 6⟩] ++ [⟨"c.333333.js", some 3, 7⟩] ∧
    (cacheFirst ⟨1000, 2⟩
        [⟨"a.111111.js", some 1, 5⟩, ⟨"b.222222.js", some 2, 6⟩]
        "c.333333.js" (Except.ok ⟨true, 7⟩) 3).cache.length
      = (⟨1000, 2⟩ : SWConfig).maxEntries ∧
    ∀ e ∈ (cacheFirst ⟨1000, 2⟩
        [⟨"a.111111.js", some 1, 5⟩, ⟨"b.222222.js", some 2, 6⟩]
        "c.333333.js" (Except.ok ⟨true, 7⟩) 3).cache,
      e.url ≠ "a.111111.js") := by
  refine ⟨by decide, ?_⟩
  exact c2_capacity_eviction ⟨1000, 2⟩ ⟨"a.111111.js", some 1, 5⟩
    [⟨"b.222222.js", some 2, 6⟩] "c.333333.js" ⟨true, 7⟩ 3
    (by decide) rfl (List.chain'_pair.mpr (by decide)) (by decide)
    (by decide) (by decide)

/-- C3: a successful write of key `k2` into a namespace containing an
entry under a different key `k1` with the same logical identity removes
every entry bearing `k1` already in the pre-write cleanup step — before
the new entry is stored — and the final namespace contains `k2` and no
entry bearing `k1`. -/
theorem c3_supersession (cfg : SWConfig) (c : Cache) (k1 k2 : String)
    (e1 : Entry) (r : FetchResult) (now : Nat)
    (_he1 : e1 ∈ c) (_hk1 : e1.url = k1)
    (hsame : getFileBaseName k1 = getFileBaseName k2) (hne : k1 ≠ k2)
    (hok : r.ok = true)
    (hexp : ∀ e, lookup c k2 = some e → isExpired cfg now e = true)
    (hcap : 0 < cfg.maxEntries)
    (hnow : ∀ e ∈ c, timeOf e ≤ now) :
    (∀ e ∈ smartCacheCleanup c k2, e.url ≠ k1) ∧
    (∀ e ∈ (cacheFirst cfg c k2 (Except.ok r) now).cache, e.url ≠ k1) ∧
    (∃ e ∈ (cacheFirst cfg c k2 (Except.ok r) now).cache, e.url = k2) := by
  have hA : ∀ e ∈ smartCacheCleanup c k2, e.url ≠ k1 := by
    intro e he heq
    unfold smartCacheCleanup at he
    rw [List.mem_filter] at he
    apply absurd he.2
    simp [heq, hsame, hne]
  have hout : (cacheFirst cfg c k2 (Except.ok r) now).cache
      = limitCacheSize
          (put (smartCacheCleanup c k2) ⟨k2, some now, r.body⟩)
          cfg.maxEntries := by
    unfold cacheFirst cacheFirstAux
    cases hl : lookup c k2 with
    | none =>
      simp only [hl]
      unfold cacheFirstAux.cacheFirstNet
      simp only [hok, if_true]
    | some e =>
      simp only [hl, hexp e hl, Bool.not_true, Bool.false_eq_true,
        if_false]
      unfold cacheFirstAux.cacheFirstNet
      simp only [hok, if_true]
  have hB : ∀ e ∈ (cacheFirst cfg c k2 (Except.ok r) now).cache,
      e.url ≠ k1 := by
    rw [hout]
    intro e he
    have he2 := limitCacheSize_subset _ _ e he
    unfold put at he2
    rcases List.mem_append.mp he2 with h | h
    · exact hA e (List.mem_of_mem_filter h)
    · rw [List.mem_singleton] at h
      subst h
      exact Ne.symm hne
  refine ⟨hA, hB, ?_⟩
  rw [hout]
  have hurls : ∀ d ∈ (smartCacheCleanup c k2).filter
      (fun x => x.url != ((⟨k2, some now, r.body⟩ : Entry).url)),
      d.url ≠ k2 := by
    intro d hd
    rw [List.mem_filter] at hd
    simpa using hd.2
  have hsubc : ∀ x ∈ (smartCacheCleanup c k2).filter
      (fun y => y.url != ((⟨k2, some now, r.body⟩ : Entry).url)),
      x ∈ c := by
    intro x hx
    exact List.mem_of_mem_filter (List.mem_of_mem_filter hx)
  have hmemnew : (⟨k2, some now, r.body⟩ : Entry)
      ∈ put (smartCacheCleanup c k2) ⟨k2, some now, r.body⟩ :=
    List.mem_append_right _ (List.mem_singleton.mpr rfl)
  unfold limitCacheSize
  by_cases hsz : cfg.maxEntries
      < (put (smartCacheCleanup c k2) ⟨k2, some now, r.body⟩).length
  · rw [if_pos hsz]
    refine ⟨(⟨k2, some now, r.body⟩ : Entry), ?_, rfl⟩
    rw [List.mem_filter]
    refine ⟨hmemnew, ?_⟩
    have hsortsplit :
        List.insertionSort byTime
            (put (smartCacheCleanup c k2) ⟨k2, some now, r.body⟩)
          = List.insertionSort byTime
              ((smartCacheCleanup c k2).filter
                (fun y => y.url != ((⟨k2, some now, r.body⟩ : Entry).url)))
            ++ [⟨k2, some now, r.body⟩] := by
      unfold put
      exact insertionSort_append_last byTime ⟨k2, some now, r.body⟩ _
        (fun x hx => hnow x (hsubc x hx))
    have hlen : (put (smartCacheCleanup c k2) ⟨k2, some now, r.body⟩).length
        - cfg.maxEntries
        ≤ (List.insertionSort byTime
            ((smartCacheCleanup c k2).filter
              (fun y => y.url != ((⟨k2, some now, r.body⟩ : Entry).url)))).length := by
      rw [List.length_insertionSort]
      unfold put
      rw [List.length_append]
      simp only [List.length_singleton]
      omega
    rw [hsortsplit, List.take_append_of_le_length hlen]
    have hdel : ∀ d ∈ (List.insertionSort byTime
        ((smartCacheCleanup c k2).filter
          (fun y => y.url != ((⟨k2, some now, r.body⟩ : Entry).url)))).take
        ((put (smartCacheCleanup c k2) ⟨k2, some now, r.body⟩).length
          - cfg.maxEntries),
        d.url ≠ k2 := by
      intro d hd
      have hd2 := List.mem_of_mem_take hd
      rw [List.mem_insertionSort] at hd2
      exact hurls d hd2
    have : ((List.insertionSort byTime
        ((smartCacheCleanup c k2).filter
          (fun y => y.url != ((⟨k2, some now, r.body⟩ : Entry).url)))).take
        ((put (smartCacheCleanup c k2) ⟨k2, some now, r.body⟩).length
          - cfg.maxEntries)).any
        (fun d => d.url == ((⟨k2, some now, r.body⟩ : Entry).url))
        = false := by
      rw [List.any_eq_false]
      intro d hd
      simpa using hdel d hd
    rw [this]
    rfl
  · rw [if_neg hsz]
    exact ⟨(⟨k2, some now, r.body⟩ : Entry), hmemnew, rfl⟩

theorem c3_witness :
    (⟨"app.111111.js", some 1, 5⟩ : Entry) ∈
        ([⟨"app.111111.js", some 1, 5⟩] : Cache) ∧
    ((∀ e ∈ smartCacheCleanup [⟨"app.111111.js", some 1, 5⟩]
        "app.222222.js", e.url ≠ "app.111111.js") ∧
    (∀ e ∈ (cacheFirst ⟨9, 5⟩ [⟨"app.111111.js", some 1, 5⟩]
        "app.222222.js" (Except.ok ⟨true, 7⟩) 3).cache,
      e.url ≠ "app.111111.js") ∧
    (∃ e ∈ (cacheFirst ⟨9, 5⟩ [⟨"app.111111.js", some 1, 5⟩]
        "app.222222.js" (Except.ok ⟨true, 7⟩) 3).cache,
      e.url = "app.222222.js")) := by
  refine ⟨by decide, ?_⟩
  exact c3_supersession ⟨9, 5⟩ [⟨"app.111111.js", some 1, 5⟩]
    "app.111111.js" "app.222222.js" ⟨"app.111111.js", some 1, 5⟩
    ⟨true, 7⟩ 3 (by decide) rfl (by decide) (by decide) rfl
    (fun e he => by
      rw [show lookup [(⟨"app.111111.js", some 1, 5⟩ : Entry)]
          "app.222222.js" = none from by decide] at he
      exact Option.noConfusion he)
    (by decide) (by decide)

/-- C6, counterexample to the claim as stated: the resolver maps
`app.ab12cd.js` to `app.js`, but `app.ef34gh.js` is left unchanged —
`g` and `h` are not hexadecimal characters, so `ef34gh` is not a hash
segment under `[a-f0-9]{6,}` and its logical identity is not `app.js`. -/
theorem c6_counterexample :
    getFileBaseName "app.ab12cd.js" = "app.js" ∧
    getFileBaseName "app.ef34gh.js" = "app.ef34gh.js" ∧
    getFileBaseName "app.ef34gh.js" ≠ "app.js" := by
  exact ⟨by decide, by decide, by decide⟩

/-- C6, amended: two physical keys whose trailing segments are genuine
6-character hexadecimal hashes, such as `app.ab12cd.js` and
`app.ef34ab.js`, both resolve to the logical identity `app.js`. -/
theorem c6_hash_identity_amended :
    getFileBaseName "app.ab12cd.js" = "app.js" ∧
    getFileBaseName "app.ef34ab.js" = "app.js" := by
  exact ⟨by decide, by decide⟩

/-- C7: a key that is a bare filename (no slash) and admits no
decomposition into base, `.`/`-` separator, 6+ hex-character hash, and
dot-free extension is its own logical identity — the resolver returns it
unchanged. -/
theorem c7_no_hash_identity (k : String)
    (h1 : ¬ IsVersionedName k.data) (h2 : '/' ∉ k.data) :
    getFileBaseName k = k := by
  have hf : fileNameOf k.data = k.data := by
    unfold fileNameOf
    simp only [splitLastOn_eq_none '/' k.data h2]
  unfold getFileBaseName
  simp only [hf]
  cases hm : matchVersioned k.data with
  | none =>
    simp only [hm]
  | some p =>
    obtain ⟨b, e⟩ := p
    exact absurd (matchVersioned_sound k.data b e hm) h1

theorem c7_witness :
    (¬ IsVersionedName ("main.js").data) ∧ ('/' ∉ ("main.js").data) ∧
    getFileBaseName "main.js" = "main.js" := by
  have h1 : ¬ IsVersionedName ("main.js").data := by
    intro h
    have h2 := matchVersioned_complete _ h
    rw [show matchVersioned ("main.js").data = none from by decide] at h2
    simp at h2
  exact ⟨h1, by decide, c7_no_hash_identity "main.js" h1 (by decide)⟩

/-- C8, counterexample to the claim as stated: `a.1.js` and `a.2.js` do
not share a logical identity under the resolver (a single digit is not a
6+ hex-character hash segment), so the full sweep groups them separately
and deletes nothing — both entries survive, not exactly one. -/
theorem c8_counterexample :
    cleanupAllOldVersions
        [⟨"a.1.js", some 1, 0⟩, ⟨"a.2.js", some 2, 0⟩]
      = [⟨"a.1.js", some 1, 0⟩, ⟨"a.2.js", some 2, 0⟩] ∧
    (cleanupAllOldVersions
        [⟨"a.1.js", some 1, 0⟩, ⟨"a.2.js", some 2, 0⟩]).length ≠ 1 := by
  exact ⟨by decide, by decide⟩

/-- C8, amended: for entries whose keys really carry hash segments and
share a logical identity, such as `a.111111.js` and `a.222222.js` (both
resolving to `a.js`), the full sweep keeps exactly the lexicographically
greatest physical key; the original pair `a.1.js`/`a.2.js` resolve to
themselves, each its own identity. -/
theorem c8_full_sweep_amended :
    getFileBaseName "a.111111.js" = "a.js" ∧
    getFileBaseName "a.222222.js" = "a.js" ∧
    cleanupAllOldVersions
        [⟨"a.111111.js", some 1, 0⟩, ⟨"a.222222.js", some 2, 0⟩]
      = [⟨"a.222222.js", some 2, 0⟩] ∧
    getFileBaseName "a.1.js" = "a.1.js" ∧
    getFileBaseName "a.2.js" = "a.2.js" := by
  exact ⟨by decide, by decide, by decide, by decide, by decide⟩

/-- C9: evaluation of the message listener at the failing input. When
the underlying storage operation rejects, `GET_CACHE_SIZE` and
`GET_CACHE_INFO` post no reply at all on the reply channel (their
promise chains have no rejection handler), while `CLEAR_CACHE` and
`CLEANUP_OLD_VERSIONS` do reply exactly once with a failure indicator —
so the claim that every maintenance request is answered exactly once
even on internal failure does not hold for the two getters. -/
theorem c9_no_reply_on_getter_failure :
    messageReplies MsgType.getCacheSize (Except.error "storage down")
      = [] ∧
    messageReplies MsgType.getCacheInfo (Except.error "storage down")
      = [] ∧
    messageReplies MsgType.clearCache (Except.error "storage down")
      = [Reply.successFalse "storage down"] ∧
    messageReplies MsgType.cleanupOldVersions (Except.error "storage down")
      = [Reply.successFalse "storage down"] := by
  exact ⟨rfl, rfl, rfl, rfl⟩



end SW
